import Mathlib

set_option maxRecDepth 100000
set_option maxHeartbeats 4000000

/-!
Verification of the MemAlerts nginx in-place patcher scripts
(`apps/backend/scripts/patch-nginx-in-place.py`,
 `apps/backend/scripts/patch-vps-nginx-me-proxy.py`).

The scripts are pure text transformations over nginx vhost files plus a thin
file-I/O wrapper.  We embed the text-transformation core faithfully: text is a
list of characters, byte offsets are natural numbers, and the handful of fixed
regular expressions used by the scripts are embedded as token-sequence
matchers (each regex is a sequence of literals and whitespace runs; maximal
munch of a whitespace run is equivalent to the regex semantics here because in
every pattern a whitespace token is followed by a literal starting with a
non-space character).  Inputs are ASCII, as the vhost files are.
-/

namespace NginxPatch

/-- Program text: a Python `str`, one entry per character. -/
abbrev Text := List Char

/-- Coerce a Lean string literal to `Text`. -/
def lc (s : String) : Text := s.data

/-- Python's `\s` character class (ASCII range, as used in the vhost files). -/
def pySpace (c : Char) : Bool :=
  c = ' ' || c = '\t' || c = '\n' || c = '\r' || c = '\x0b' || c = '\x0c'

/-- Python's `\w` character class (ASCII range): used for the `\b` anchor. -/
def wordChar (c : Char) : Bool :=
  ('a' ≤ c && c ≤ 'z') || ('A' ≤ c && c ≤ 'Z') || ('0' ≤ c && c ≤ '9') || c = '_'

/-- Python `s.find(pat)`: index of the first occurrence of `pat`, if any. -/
def findSub : Text → Text → Option Nat
  | s, pat =>
    if pat.isPrefixOf s then some 0
    else
      match s with
      | [] => none
      | _ :: s' => (findSub s' pat).map (· + 1)

/-- Python `s.rfind(pat)`: index of the last occurrence of `pat`, if any. -/
def rfindSub : Text → Text → Option Nat
  | s, pat =>
    match s with
    | [] => if pat.isPrefixOf s then some 0 else none
    | _ :: s' =>
      match rfindSub s' pat with
      | some k => some (k + 1)
      | none => if pat.isPrefixOf s then some 0 else none

/-- Python `pat in s`. -/
def containsSub (s pat : Text) : Bool := (findSub s pat).isSome

/-- Python `s.find(c, i)`: first occurrence of character `c` at index ≥ `i`. -/
def findCharFrom (s : Text) (i : Nat) (c : Char) : Option Nat :=
  (findSub (s.drop i) [c]).map (· + i)

/-- Python slice `t[s:e]`. -/
def sliceT (s e : Nat) (t : Text) : Text := (t.take e).drop s

/-- Python `t[:i] + ins + t[i:]`. -/
def spliceAt (i : Nat) (ins t : Text) : Text := t.take i ++ ins ++ t.drop i

/-- One element of an embedded regular expression: a literal, `\s+`, or `\s*`. -/
inductive Tok where
  | lit : Text → Tok
  | ws1 : Tok
  | ws0 : Tok

/-- Match a token sequence at the head of `s` (maximal munch for whitespace
runs); returns the number of characters consumed. -/
def matchToks : List Tok → Text → Option Nat
  | [], _ => some 0
  | .lit cs :: ts, s =>
    if cs.isPrefixOf s then (matchToks ts (s.drop cs.length)).map (· + cs.length) else none
  | .ws1 :: ts, s =>
    let w := (s.takeWhile pySpace).length
    if w = 0 then none else (matchToks ts (s.drop w)).map (· + w)
  | .ws0 :: ts, s =>
    let w := (s.takeWhile pySpace).length
    (matchToks ts (s.drop w)).map (· + w)

/-- `re.search` of a `^`-anchored pattern with `re.MULTILINE`: scan for the
leftmost line start at which the tokens match.  `atLS` is true when the
current position is the start of the string or follows a newline.  Returns
(match start, match length). -/
def searchMLAux (ts : List Tok) : Text → Bool → Nat → Option (Nat × Nat)
  | s, atLS, pos =>
    match (if atLS then matchToks ts s else none) with
    | some L => some (pos, L)
    | none =>
      match s with
      | [] => none
      | c :: s' => searchMLAux ts s' (c = '\n') (pos + 1)

/-- Leftmost multiline-anchored match in `s`. -/
def searchML (ts : List Tok) (s : Text) : Option (Nat × Nat) := searchMLAux ts s true 0

/-- `re.search(...) is not None` for a `^`-anchored multiline pattern. -/
def hasML (ts : List Tok) (s : Text) : Bool := (searchML ts s).isSome

/-- `re.search` of a `\b`-anchored pattern: scan for the leftmost position
preceded by a non-word character (or the string start) at which the tokens
match. -/
def searchWBAux (ts : List Tok) : Text → Bool → Nat → Option (Nat × Nat)
  | s, prevWord, pos =>
    match (if prevWord then none else matchToks ts s) with
    | some L => some (pos, L)
    | none =>
      match s with
      | [] => none
      | c :: s' => searchWBAux ts s' (wordChar c) (pos + 1)

/-- Leftmost word-boundary-anchored match in `s`. -/
def searchWB (ts : List Tok) (s : Text) : Option (Nat × Nat) := searchWBAux ts s false 0

/-- Whether the position just after consuming `L` characters of `s` is a line
start (the consumed text ends with a newline). -/
def atLSAfter (s : Text) (L : Nat) : Bool := (s.take L).getLast? = some '\n'

/-- `re.finditer` for a `^`-anchored multiline pattern: all non-overlapping
match start positions, left to right (fuel-driven; one character or one match
is consumed per step, so `s.length + 1` fuel is always enough). -/
def finditerAux (ts : List Tok) : Nat → Text → Bool → Nat → List Nat
  | 0, _, _, _ => []
  | fuel + 1, s, atLS, pos =>
    match (if atLS then matchToks ts s else none) with
    | some L =>
      if L = 0 then
        match s with
        | [] => []
        | c :: s' => finditerAux ts fuel s' (c = '\n') (pos + 1)
      else pos :: finditerAux ts fuel (s.drop L) (atLSAfter s L) (pos + L)
    | none =>
      match s with
      | [] => []
      | c :: s' => finditerAux ts fuel s' (c = '\n') (pos + 1)

/-- All match starts of a `^`-anchored multiline pattern. -/
def finditerML (ts : List Tok) (s : Text) : List Nat :=
  finditerAux ts (s.length + 1) s true 0

/-- `re.sub` for a `^`-anchored multiline pattern: every non-overlapping match
`m` is replaced by `repl m` (the scripts use a backreference of the leading
whitespace group, which `repl` can recover from the match text). -/
def subMLAux (ts : List Tok) (repl : Text → Text) : Nat → Text → Bool → Text
  | 0, s, _ => s
  | fuel + 1, s, atLS =>
    match (if atLS then matchToks ts s else none) with
    | some L =>
      if L = 0 then
        match s with
        | [] => []
        | c :: s' => c :: subMLAux ts repl fuel s' (c = '\n')
      else repl (s.take L) ++ subMLAux ts repl fuel (s.drop L) (atLSAfter s L)
    | none =>
      match s with
      | [] => []
      | c :: s' => c :: subMLAux ts repl fuel s' (c = '\n')

/-- Global multiline substitution. -/
def subML (ts : List Tok) (repl : Text → Text) (s : Text) : Text :=
  subMLAux ts repl (s.length + 1) s true

/-- The brace scan shared by `_server_blocks` and `_extract_braced_block`:
starting from depth `d`, index (relative to the head of `s`) of the `}` whose
processing makes the depth counter reach zero.  Mirrors the Python loops
`depth += 1` on `{`, `depth -= 1; if depth == 0: ...` on `}`; the depth is an
integer because the Python counter can go negative. -/
def scanClose : Text → Int → Option Nat
  | [], _ => none
  | c :: cs, d =>
    if c = '{' then (scanClose cs (d + 1)).map (· + 1)
    else if c = '}' then
      if d - 1 = 0 then some 0 else (scanClose cs (d - 1)).map (· + 1)
    else (scanClose cs d).map (· + 1)

/-- The pattern `\bserver\s*\{` of `_server_blocks`. -/
def serverOpenToks : List Tok := [.lit (lc "server"), .ws0, .lit (lc "\x7b")]

/-- Loop body of `_server_blocks` (`patch-nginx-in-place.py`): repeatedly
search `\bserver\s*\{` from offset `i`, then scan braces starting with
`depth = 0` from the end of the match (note: the matched `{` itself is
therefore not counted), record `(start, end)` when the depth counter reaches
zero, and resume after the recorded end; stop on a failed search or an
unfinished brace scan.  `i` strictly increases and stays ≤ `text.length`, so
`text.length + 1` fuel always suffices. -/
def serverBlocksAux (text : Text) : Nat → Nat → List (Nat × Nat)
  | 0, _ => []
  | fuel + 1, i =>
    match searchWB serverOpenToks (text.drop i) with
    | none => []
    | some (ms, ml) =>
      let start := i + ms
      let j := start + ml
      match scanClose (text.drop j) 0 with
      | none => []
      | some k =>
        let e := j + k + 1
        (start, e) :: serverBlocksAux text fuel e

/-- `_server_blocks(text)`: spans reported as top-level `server { ... }`
blocks. -/
def serverBlocks (text : Text) : List (Nat × Nat) :=
  serverBlocksAux text (text.length + 1) 0

/-- `_extract_braced_block(s, start_idx)`: find the first `{` at index ≥
`start_idx`, scan to the matching `}` (depth starts at 1), and return the
spanned text together with the index just past the closing brace. -/
def extractBracedBlock (s : Text) (startIdx : Nat) : Option (Text × Nat) :=
  match findCharFrom s startIdx '{' with
  | none => none
  | some bo =>
    match scanClose (s.drop (bo + 1)) 1 with
    | none => none
    | some k =>
      let e := bo + 1 + k + 1
      some (sliceT startIdx e s, e)

/-- The head `^\s*server_name\s+` of the `_server_names` pattern. -/
def serverNameHeadToks : List Tok := [.ws0, .lit (lc "server_name"), .ws1]

/-- Match `^\s*server_name\s+([^;]+);` at the head of `s` and return group 1.
The greedy `\s+`/`[^;]+` boundary matters in one corner: when the maximal
whitespace run is followed directly by `;`, Python backtracks `\s+` by one
character and the group becomes that single whitespace character (possible
only when the run has at least two characters). -/
def matchServerNameLine (s : Text) : Option Text :=
  match matchToks [.ws0, .lit (lc "server_name")] s with
  | none => none
  | some L0 =>
    let rest := s.drop L0
    let w := rest.takeWhile pySpace
    if w.length = 0 then none
    else
      let after := rest.drop w.length
      let body := after.takeWhile (fun c => ¬ (c = ';'))
      if body.length = 0 then
        if after.head? = some ';' && decide (2 ≤ w.length) then some [w.getLast!]
        else none
      else
        if (after.drop body.length).head? = some ';' then some body else none

/-- Leftmost multiline match of the `_server_names` pattern; returns group 1. -/
def searchServerNameAux : Text → Bool → Option Text
  | s, atLS =>
    match (if atLS then matchServerNameLine s else none) with
    | some raw => some raw
    | none =>
      match s with
      | [] => none
      | c :: s' => searchServerNameAux s' (c = '\n')

/-- `re.search(r"^\s*server_name\s+([^;]+);", sb, re.MULTILINE)`, group 1. -/
def searchServerName (s : Text) : Option Text := searchServerNameAux s true

/-- Python `str.split()` (split on whitespace runs, dropping empty parts). -/
def splitWsAux : Text → Text → List Text
  | [], acc => if acc = [] then [] else [acc.reverse]
  | c :: cs, acc =>
    if pySpace c then
      if acc = [] then splitWsAux cs [] else acc.reverse :: splitWsAux cs []
    else splitWsAux cs (c :: acc)

/-- Python `str.split()`. -/
def splitWs (s : Text) : List Text := splitWsAux s []

/-- `_server_names(server_block)`: group 1 of the first `server_name` line
found anywhere in the block text, split on whitespace, dropping empty parts
and `$`-prefixed variable references. -/
def serverNames (sb : Text) : List Text :=
  match searchServerName sb with
  | none => []
  | some raw =>
    (splitWs raw).filter (fun p => ¬ (p = []) && ¬ (p.head? = some '$'))

/-- Decimal digits of a natural number (Python `f"{n}"` for `int`). -/
def natToTextAux : Nat → Nat → Text
  | 0, _ => []
  | fuel + 1, n =>
    if n < 10 then [Char.ofNat (48 + n)]
    else natToTextAux fuel (n / 10) ++ [Char.ofNat (48 + n % 10)]

/-- Decimal rendering of a natural number. -/
def natToText (n : Nat) : Text := natToTextAux (n + 1) n

/-- `f"http://127.0.0.1:{int(upstream_port)}"`. -/
def upstreamOf (port : Nat) : Text := lc "http://127.0.0.1:" ++ natToText port

/-- `_proxy_common_headers()`. -/
def proxyCommonHeaders : Text :=
  lc "        proxy_set_header Host $host;\n        proxy_set_header X-Real-IP $remote_addr;\n        proxy_set_header X-Forwarded-For $proxy_add_x_forwarded_for;\n        proxy_set_header X-Forwarded-Proto $scheme;\n"

/-- The literal `"\n    location / {"` that `_ensure_location_if_missing` (and
`ensure_block_before_location_slash`) searches for: the four-space-indented
SPA catch-all header. -/
def catchallLit : Text := lc "\n    location / \x7b"

/-- The literal `"\n}"`: a closing brace at column zero. -/
def closeLit : Text := lc "\n\x7d"

/-- Normalization applied to an insertion block: ensure it starts and ends
with a newline. -/
def normalizeBlock (b : Text) : Text :=
  let b1 := if b.head? = some '\n' then b else '\n' :: b
  if b1.getLast? = some '\n' then b1 else b1 ++ ['\n']

/-- `_ensure_location_if_missing(server_block, location_header_regex,
location_block)`: if the header pattern already matches, do nothing; else
insert the block at the first occurrence of the literal `"\n    location / {"`
if present, else at the last occurrence of the literal `"\n}"`, else do
nothing. -/
def ensureLocationIfMissing (hdr : List Tok) (blk : Text) (sb : Text) : Text × Bool :=
  if hasML hdr sb then (sb, false)
  else
    match findSub sb catchallLit with
    | some ip => (spliceAt ip (normalizeBlock blk) sb, true)
    | none =>
      match rfindSub sb closeLit with
      | some ip => (spliceAt ip (normalizeBlock blk) sb, true)
      | none => (sb, false)

/-- `ensure_block_before_location_slash(server_block, block)` from
`patch-vps-nginx-me-proxy.py`: same insertion policy, no header check. -/
def ensureBlockBeforeLocationSlash (sb blk : Text) : Text × Bool :=
  match findSub sb catchallLit with
  | some ip => (spliceAt ip (normalizeBlock blk) sb, true)
  | none =>
    match rfindSub sb closeLit with
    | some ip => (spliceAt ip (normalizeBlock blk) sb, true)
    | none => (sb, false)

/-- `^\s*location\s+\^~\s+/me/\s*\{`. -/
def meSlashToks : List Tok :=
  [.ws0, .lit (lc "location"), .ws1, .lit (lc "^~"), .ws1, .lit (lc "/me/"), .ws0, .lit (lc "\x7b")]

/-- `^(\s*)location\s*=\s*/me\s*\{` (note `\s*` before `=`). -/
def meExactLooseToks : List Tok :=
  [.ws0, .lit (lc "location"), .ws0, .lit (lc "="), .ws0, .lit (lc "/me"), .ws0, .lit (lc "\x7b")]

/-- `^\s*location\s+=\s*/me\s*\{` (note `\s+` before `=`). -/
def meExactStrictToks : List Tok :=
  [.ws0, .lit (lc "location"), .ws1, .lit (lc "="), .ws0, .lit (lc "/me"), .ws0, .lit (lc "\x7b")]

/-- `^\s*location\s+\^~\s+/internal/\s*\{`. -/
def internalToks : List Tok :=
  [.ws0, .lit (lc "location"), .ws1, .lit (lc "^~"), .ws1, .lit (lc "/internal/"), .ws0, .lit (lc "\x7b")]

/-- `^\s*location\s+=\s*/health\s*\{`. -/
def healthToks : List Tok :=
  [.ws0, .lit (lc "location"), .ws1, .lit (lc "="), .ws0, .lit (lc "/health"), .ws0, .lit (lc "\x7b")]

/-- `^\s*location\s+\^~\s+/<p>/\s*\{` for a backend namespace `p`. -/
def slashToksFor (p : Text) : List Tok :=
  [.ws0, .lit (lc "location"), .ws1, .lit (lc "^~"), .ws1, .lit ('/' :: p ++ ['/']), .ws0, .lit (lc "\x7b")]

/-- `^\s*location\s+=\s*/<p>\s*\{` for a backend namespace `p`. -/
def exactToksFor (p : Text) : List Tok :=
  [.ws0, .lit (lc "location"), .ws1, .lit (lc "="), .ws0, .lit ('/' :: p), .ws0, .lit (lc "\x7b")]

/-- `^\s*location\s+\^~\s+/overlay/credits/\s*\{`. -/
def overlayToks : List Tok :=
  [.ws0, .lit (lc "location"), .ws1, .lit (lc "^~"), .ws1, .lit (lc "/overlay/credits/"), .ws0, .lit (lc "\x7b")]

/-- `^\s*location\s+/socket\.io/\s*\{`. -/
def socketToks : List Tok :=
  [.ws0, .lit (lc "location"), .ws1, .lit (lc "/socket.io/"), .ws0, .lit (lc "\x7b")]

/-- `^\s*location\s+\^~\s+/api/\s*\{`. -/
def apiToks : List Tok :=
  [.ws0, .lit (lc "location"), .ws1, .lit (lc "^~"), .ws1, .lit (lc "/api/"), .ws0, .lit (lc "\x7b")]

/-- `^\s*location\s+/uploads/\s*\{`. -/
def uploadsToks : List Tok :=
  [.ws0, .lit (lc "location"), .ws1, .lit (lc "/uploads/"), .ws0, .lit (lc "\x7b")]

/-- The inserted `location ^~ /internal/` block. -/
def internalBlock : Text :=
  lc "    # memalerts-managed: block internal relay\n    location ^~ /internal/ \x7b\n        return 404;\n    \x7d\n"

/-- The inserted `location = /health` block. -/
def healthBlock (up : Text) : Text :=
  lc "    # memalerts-managed: api proxy\n    location = /health \x7b\n        proxy_pass " ++ up ++ lc ";\n" ++ proxyCommonHeaders ++ lc "    \x7d\n"

/-- The inserted minimal `location = /me` block. -/
def meBlock (up : Text) : Text :=
  lc "    # memalerts-managed: api proxy\n    location = /me \x7b\n        proxy_pass " ++ up ++ lc ";\n" ++ proxyCommonHeaders ++ lc "    \x7d\n"

/-- The inserted minimal `location ^~ /me/` block. -/
def meSlashBlock (up : Text) : Text :=
  lc "    # memalerts-managed: api proxy\n    location ^~ /me/ \x7b\n        proxy_pass " ++ up ++ lc ";\n" ++ proxyCommonHeaders ++ lc "    \x7d\n"

/-- The inserted `location ^~ /<p>/` proxy block. -/
def slashBlockFor (up p : Text) : Text :=
  lc "    # memalerts-managed: api proxy\n    location ^~ /" ++ p ++ lc "/ \x7b\n        proxy_pass " ++ up ++ lc ";\n" ++ proxyCommonHeaders ++ lc "    \x7d\n"

/-- The inserted `location = /<p>` proxy block. -/
def exactBlockFor (up p : Text) : Text :=
  lc "    # memalerts-managed: api proxy\n    location = /" ++ p ++ lc " \x7b\n        proxy_pass " ++ up ++ lc ";\n" ++ proxyCommonHeaders ++ lc "    \x7d\n"

/-- The inserted `location ^~ /overlay/credits/` block. -/
def overlayBlock (up : Text) : Text :=
  lc "    # memalerts-managed: api proxy\n    location ^~ /overlay/credits/ \x7b\n        proxy_pass " ++ up ++ lc ";\n" ++ proxyCommonHeaders ++ lc "    \x7d\n"

/-- The inserted `location /socket.io/` block. -/
def socketBlock (up : Text) : Text :=
  lc "    # memalerts-managed: socket.io proxy\n    location /socket.io/ \x7b\n        proxy_pass " ++ up ++ lc ";\n" ++ proxyCommonHeaders ++ lc "        proxy_http_version 1.1;\n        proxy_set_header Upgrade $http_upgrade;\n        proxy_set_header Connection \"upgrade\";\n        proxy_read_timeout 3600s;\n        proxy_send_timeout 3600s;\n    \x7d\n"

/-- The inserted `location ^~ /api/` compat block. -/
def apiBlock (up : Text) : Text :=
  lc "    # memalerts-managed: api compat (/api/* -> /*)\n    location ^~ /api/ \x7b\n        proxy_pass " ++ up ++ lc "/;\n" ++ proxyCommonHeaders ++ lc "    \x7d\n"

/-- Replacement for `re.sub(r"^(\s*)location\s*=\s*/me\s*\{", r"\1location ^~ /me/ {", ...)`:
the captured leading-whitespace group followed by the new header text. -/
def subMeRepl (m : Text) : Text := m.takeWhile pySpace ++ lc "location ^~ /me/ \x7b"

/-- The clone transform applied to an extracted `location = /me { ... }`
block: the global multiline substitution rewriting every matching header line
to `location ^~ /me/ {`. -/
def cloneMe (block : Text) : Text := subML meExactLooseToks subMeRepl block

/-- The clone step inside `_ensure_memalerts_api_proxy_locations` (lines
410-425): if `location ^~ /me/` is absent but `location = /me` is present,
clone that block (header rewritten), and insert the clone, preceded by a
managed-marker comment line, immediately after the original block. -/
def cloneMeInBlock (sb : Text) : Text × Bool :=
  if hasML meSlashToks sb then (sb, false)
  else
    match searchML meExactLooseToks sb with
    | none => (sb, false)
    | some (start, _) =>
      let indent := (sb.drop start).takeWhile pySpace
      match extractBracedBlock sb start with
      | none => (sb, false)
      | some (block, e) =>
        let cloned := cloneMe block
        let insertion := '\n' :: (indent ++ lc "# memalerts-managed: api proxy (/me/*)\n" ++ cloned ++ ['\n'])
        (spliceAt e insertion sb, true)

/-- The backend namespaces iterated by `_ensure_memalerts_api_proxy_locations`. -/
def apiPrefixNames : List Text :=
  [lc "auth", lc "webhooks", lc "public", lc "submissions", lc "channels",
   lc "wallet", lc "memes", lc "streamer", lc "owner", lc "moderation"]

/-- One iteration of the namespace loop: for `wallet`/`memes` also ensure the
exact-match block, then ensure the prefix-match block. -/
def prefixStep (up : Text) (acc : Text × Bool) (p : Text) : Text × Bool :=
  let (sb0, ch) := acc
  let (sb1, cx) :=
    if p = lc "wallet" || p = lc "memes" then
      ensureLocationIfMissing (exactToksFor p) (exactBlockFor up p) sb0
    else (sb0, false)
  let (sb2, cy) := ensureLocationIfMissing (slashToksFor p) (slashBlockFor up p) sb1
  (sb2, ch || cx || cy)

/-- `_ensure_memalerts_api_proxy_locations(server_block, upstream_port)`. -/
def ensureMemalertsApiProxyLocations (port : Nat) (sb : Text) : Text × Bool :=
  let up := upstreamOf port
  let (sb, c0) := ensureLocationIfMissing internalToks internalBlock sb
  let (sb, c1) := ensureLocationIfMissing healthToks (healthBlock up) sb
  let (sb, cm) := cloneMeInBlock sb
  let (sb, c2) := ensureLocationIfMissing meExactStrictToks (meBlock up) sb
  let (sb, c3) := ensureLocationIfMissing meSlashToks (meSlashBlock up) sb
  let (sb, cp) := apiPrefixNames.foldl (prefixStep up) (sb, false)
  let (sb, c7) := ensureLocationIfMissing overlayToks (overlayBlock up) sb
  let (sb, c8) := ensureLocationIfMissing socketToks (socketBlock up) sb
  let (sb, c9) := ensureLocationIfMissing apiToks (apiBlock up) sb
  (sb, c0 || c1 || cm || c2 || c3 || cp || c7 || c8 || c9)

/-- The middle of the rate-limit header pattern for `location_prefix_regex = "=" + r"\s*/me"`. -/
def rlMeToks : List Tok :=
  [.ws0, .lit (lc "location"), .ws1, .lit (lc "="), .ws0, .lit (lc "/me"), .ws0, .lit (lc "\x7b")]

/-- Rate-limit header pattern for `location_prefix_regex = r"\^~\s+/auth/"`. -/
def rlAuthToks : List Tok :=
  [.ws0, .lit (lc "location"), .ws1, .lit (lc "^~"), .ws1, .lit (lc "/auth/"), .ws0, .lit (lc "\x7b")]

/-- Rate-limit header pattern for `location_prefix_regex = r"/socket\.io/"`. -/
def rlSocketToks : List Tok :=
  [.ws0, .lit (lc "location"), .ws1, .lit (lc "/socket.io/"), .ws0, .lit (lc "\x7b")]

/-- Rate-limit header pattern for `location_prefix_regex = r"/"`. -/
def rlSlashToks : List Tok :=
  [.ws0, .lit (lc "location"), .ws1, .lit (lc "/"), .ws0, .lit (lc "\x7b")]

/-- The line pair inserted by `_ensure_location_rate_limit` (note the fixed
eight-space indentation). -/
def rateLimitInsertion (zone : Text) (burst : Nat) : Text :=
  lc "        # memalerts-managed: rate-limit\n        limit_req zone=" ++ zone ++
    lc " burst=" ++ natToText burst ++ lc " nodelay;\n"

/-- Body of the `_ensure_location_rate_limit` loop for one header match at
(stale) position `start`: find the next `{`, scan to the matching `}`, skip
when the spanned text contains `"limit_req "` anywhere, otherwise insert the
rate-limit lines right after the opening-brace line. -/
def rateLimitStep (zone : Text) (burst : Nat) (acc : Text × Bool) (start : Nat) : Text × Bool :=
  let (sb, ch) := acc
  match findCharFrom sb start '{' with
  | none => (sb, ch)
  | some bo =>
    match scanClose (sb.drop (bo + 1)) 1 with
    | none => (sb, ch)
    | some k =>
      let locEnd := bo + 1 + k + 1
      let locBlock := sliceT start locEnd sb
      if containsSub locBlock (lc "limit_req ") then (sb, ch)
      else
        match findCharFrom sb bo '\n' with
        | none => (sb, ch)
        | some ble => (spliceAt (ble + 1) (rateLimitInsertion zone burst) sb, true)

/-- `_ensure_location_rate_limit(server_block, location_prefix_regex, zone,
burst)`: the match list is computed once on the incoming text (as Python's
`list(loc_header_re.finditer(server_block))`) and then folded over while the
text mutates. -/
def ensureLocationRateLimit (ts : List Tok) (zone : Text) (burst : Nat) (sb : Text) : Text × Bool :=
  (finditerML ts sb).foldl (rateLimitStep zone burst) (sb, false)

/-- The block inserted by `_ensure_uploads_location` when no `/uploads/`
location exists (already newline-wrapped in the source). -/
def uploadsBlockNew (aliasDir : Text) : Text :=
  lc "\n    # memalerts-managed: uploads cache\n    location /uploads/ \x7b\n        alias " ++ aliasDir ++
    lc ";\n        expires 30d;\n        add_header Cache-Control \"public, max-age=2592000, immutable\" always;\n        add_header Accept-Ranges \"bytes\" always;\n        try_files $uri =404;\n    \x7d\n"

/-- One conditional append of `_ensure_uploads_location`: when `key` is absent
from the original location block, drop the final `}` of the accumulated text
and append the directive line plus `"    }\n"`. -/
def uploadsPatchStep (locBlock : Text) (acc : Text × Bool) (key line : Text) : Text × Bool :=
  if containsSub locBlock key then acc
  else (acc.1.dropLast ++ line ++ lc "    \x7d\n", true)

/-- `_ensure_uploads_location(server_block, uploads_alias_dir)`. -/
def ensureUploadsLocation (aliasDir0 : Text) (sb : Text) : Text × Bool :=
  let aliasDir := if aliasDir0.getLast? = some '/' then aliasDir0 else aliasDir0 ++ ['/']
  match searchML uploadsToks sb with
  | none =>
    match findSub sb catchallLit with
    | some ip => (spliceAt ip (uploadsBlockNew aliasDir) sb, true)
    | none =>
      match rfindSub sb closeLit with
      | some ip => (spliceAt ip (uploadsBlockNew aliasDir) sb, true)
      | none => (sb, false)
  | some (start, _) =>
    match findCharFrom sb start '{' with
    | none => (sb, false)
    | some bo =>
      match scanClose (sb.drop (bo + 1)) 1 with
      | none => (sb, false)
      | some k =>
        let locEnd := bo + 1 + k + 1
        let locBlock := sliceT start locEnd sb
        let r0 := (locBlock, false)
        let r1 := uploadsPatchStep locBlock r0 (lc "expires ") (lc "        expires 30d;\n")
        let r2 := uploadsPatchStep locBlock r1 (lc "Cache-Control")
          (lc "        add_header Cache-Control \"public, max-age=2592000, immutable\" always;\n")
        let r3 := uploadsPatchStep locBlock r2 (lc "Accept-Ranges")
          (lc "        add_header Accept-Ranges \"bytes\" always;\n")
        let r4 := uploadsPatchStep locBlock r3 (lc "try_files")
          (lc "        try_files $uri =404;\n")
        if r4.2 then (sb.take start ++ r4.1 ++ sb.drop locEnd, true) else (sb, false)

/-- Lexicographic order on Python strings (by character code); used to embed
`sorted(...)` over the matched-domain set. -/
def lexLt : Text → Text → Bool
  | [], [] => false
  | [], _ :: _ => true
  | _ :: _, [] => false
  | c :: cs, d :: ds => if c = d then lexLt cs ds else decide (c < d)

/-- Insert into a strictly increasing list, ignoring duplicates. -/
def insertLexDedup (x : Text) : List Text → List Text
  | [] => [x]
  | y :: ys => if x = y then y :: ys else if lexLt x y then x :: y :: ys else y :: insertLexDedup x ys

/-- `sorted(set(l))`: the strictly increasing enumeration of the distinct
elements of `l`. -/
def sortedDedup (l : List Text) : List Text := l.foldr insertLexDedup []

/-- `sorted(set(_server_names(sb)) & match_domains)`. -/
def matchedDomains (domains : List Text) (names : List Text) : List Text :=
  sortedDedup (names.filter (fun n => domains.any (fun d => d = n)))

/-- First-match association lookup (Python `d in map` / `map[d]`). -/
def lookupT {α : Type} : List (Text × α) → Text → Option α
  | [], _ => none
  | (k, v) :: rest, d => if k = d then some v else lookupT rest d

/-- `for d in sorted(matched): if d in m: pick m[d]; break`. -/
def pickFirst {α : Type} (m : List (Text × α)) : List Text → Option α
  | [] => none
  | d :: ds =>
    match lookupT m d with
    | some v => some v
    | none => pickFirst m ds

/-- The caller-supplied configuration of `patch_nginx_site_file`. -/
structure Maps where
  domains : List Text
  uploadsByDomain : List (Text × Text)
  portByDomain : List (Text × Nat)

/-- The per-server-block rule chain of `patch_nginx_site_file` (lines
624-654), with the uploads alias and upstream port already selected. -/
def applyServerRules (aliasDir : Text) (port : Nat) (sb : Text) : Text × Bool :=
  let (sb1, c1) := if ¬ (aliasDir = []) then ensureUploadsLocation aliasDir sb else (sb, false)
  let (sb2, cA) := ensureMemalertsApiProxyLocations port sb1
  let (sb3, c2) := ensureLocationRateLimit rlMeToks (lc "memalerts_api_per_ip") 30 sb2
  let (sb4, c3) := ensureLocationRateLimit rlAuthToks (lc "memalerts_auth_per_ip") 10 sb3
  let (sb5, c4) := ensureLocationRateLimit rlSocketToks (lc "memalerts_api_per_ip") 60 sb4
  let (sb6, c5) := ensureLocationRateLimit rlSlashToks (lc "memalerts_api_per_ip") 80 sb5
  (sb6, c1 || cA || c2 || c3 || c4 || c5)

/-- One parent-block body of the `patch_nginx_site_file` loop: skip the block
when no `server_name` matches the configured domains, otherwise select the
uploads alias (empty text when unmapped, which disables the uploads rule) and
the upstream port (3001 when unmapped) and run the rule chain. -/
def patchOneServer (mp : Maps) (sb : Text) : Text × Bool :=
  let matched := matchedDomains mp.domains (serverNames sb)
  if matched = [] then (sb, false)
  else
    let aliasDir := (pickFirst mp.uploadsByDomain matched).getD []
    let port := (pickFirst mp.portByDomain matched).getD 3001
    applyServerRules aliasDir port sb

/-- The right-to-left edit loop of `patch_nginx_site_file` (lines 595-659):
blocks are visited from the last byte offset to the first; the block text is
read from the current buffer at the originally scanned offsets and the span
is replaced only when some rule reported a change. -/
def applyBlockEdits (g : Text → Text × Bool) (bs : List (Nat × Nat)) (t : Text) : Text × Bool :=
  bs.foldr
    (fun se acc =>
      let sb := sliceT se.1 se.2 acc.1
      let (p, c) := g sb
      if c then (acc.1.take se.1 ++ p ++ acc.1.drop se.2, true) else acc)
    (t, false)

/-- The pure text transformation of `patch_nginx_site_file`: scan the server
spans, and when none are found return the text unchanged, otherwise run the
right-to-left edit loop. -/
def patchTextPure (mp : Maps) (text : Text) : Text × Bool :=
  let blocks := serverBlocks text
  if blocks = [] then (text, false)
  else applyBlockEdits (patchOneServer mp) blocks text

/-- Observable storage effects of a patch session. -/
inductive FileEvent where
  | backup : FileEvent
  | write : FileEvent
deriving DecidableEq

/-- Storage owned by one session: the target file and the backup copy. -/
structure FileState where
  cur : Text
  backupFile : Option Text
deriving DecidableEq

/-- The finalizing step shared by `patch_nginx_site_file` (lines 661-666) and
`patch-vps-nginx-me-proxy.py` `main` (lines 185-192): when no rule changed the
buffer the session is a no-op (no backup, no write); otherwise the original
content is backed up first and the write happens only after the backup
succeeded — a failing backup raises before the write statement is reached. -/
def runPatchSession (compute : Text → Text × Bool) (backupOk : Bool) (fs : FileState) :
    FileState × List FileEvent :=
  let (newText, changed) := compute fs.cur
  if changed then
    if backupOk then ({ cur := newText, backupFile := some fs.cur }, [FileEvent.backup, FileEvent.write])
    else (fs, [FileEvent.backup])
  else (fs, [])

/-- `find_block_ends_for_location_me(text)` from `patch-vps-nginx-me-proxy.py`:
for every multiline match of `^(\s*)location\s*=\s*/me\s*\{`, the match start,
the index past the matching `}`, and the captured indentation. -/
def findBlockEndsForLocationMe (t : Text) : List (Nat × Nat × Text) :=
  (finditerML meExactLooseToks t).filterMap
    (fun st =>
      (extractBracedBlock t st).map
        (fun be => (st, be.2, (t.drop st).takeWhile pySpace)))

/-- One clone insertion of the me-proxy script: re-extract the block at the
(stale) start offset from the current text, clone it, and insert the clone
after the originally computed end offset. -/
def meProxyCloneStep (b : Nat × Nat × Text) (acc : Text × Bool) : Text × Bool :=
  match extractBracedBlock acc.1 b.1 with
  | none => acc
  | some (block, _) =>
    let cloned := cloneMe block
    let insertion :=
      '\n' :: (b.2.2 ++ lc "# memalerts-managed: proxy /me/* (fix SPA HTML)\n" ++ cloned ++ ['\n'])
    (spliceAt b.2.1 insertion acc.1, true)

/-- Stage 1 of `patch-vps-nginx-me-proxy.py` `main` (lines 89-108): the
presence check for `location ^~ /me/ {` is evaluated once over the whole
document; when it matches, the whole clone stage is skipped.  When no
`location = /me` block exists to clone the script exits with an error
(`none`). -/
def meProxyCloneStage (t : Text) : Option (Text × Bool) :=
  if hasML meSlashToks t then some (t, false)
  else
    let bs := findBlockEndsForLocationMe t
    if bs = [] then none
    else some (bs.foldr meProxyCloneStep (t, false))

/-- Spec-side comparator for the header matcher: the block's own text with the
content of nested blocks (depth ≥ 2, counting the block's own braces as depth
1) removed.  Follows the spec's words "within the block's own text only (not
nested blocks)". -/
def serverOwnTextAux : Text → Nat → Text
  | [], _ => []
  | c :: cs, d =>
    if c = '{' then
      if d + 1 ≥ 2 then serverOwnTextAux cs (d + 1) else c :: serverOwnTextAux cs (d + 1)
    else if c = '}' then
      if d ≥ 2 then serverOwnTextAux cs (d - 1) else c :: serverOwnTextAux cs (d - 1)
    else if d ≥ 2 then serverOwnTextAux cs d
    else c :: serverOwnTextAux cs d

/-- The block's own text (nested-block content masked out). -/
def serverOwnText (sb : Text) : Text := serverOwnTextAux sb 0

/-- Spec-side identity extraction: run the identity-directive search on the
block's own text only.  Follows the spec's words for `extract_identity`. -/
def specServerNames (sb : Text) : List Text := serverNames (serverOwnText sb)

/-- The interior of a location block at depth exactly 1 (between the block's
own braces, nested blocks' content and braces removed): the spec's "block's
own body (excluding nested blocks)". -/
def ownBodyAux : Text → Nat → Text
  | [], _ => []
  | c :: cs, d =>
    if c = '{' then
      if d = 0 then ownBodyAux cs 1 else ownBodyAux cs (d + 1)
    else if c = '}' then
      if d = 1 then ownBodyAux cs 0 else ownBodyAux cs (d - 1)
    else if d = 1 then c :: ownBodyAux cs d
    else ownBodyAux cs d

/-- The body of a braced block, nested blocks excluded. -/
def locationOwnBody (block : Text) : Text := ownBodyAux block 0

/-- Split text into lines at newlines. -/
def splitLinesAux : Text → Text → List Text
  | [], acc => [acc.reverse]
  | c :: cs, acc => if c = '\n' then acc.reverse :: splitLinesAux cs [] else splitLinesAux cs (c :: acc)

/-- The lines of a text. -/
def splitLines (t : Text) : List Text := splitLinesAux t []

/-- Spec-side directive-presence check for the augmenter: some line of the
block's own body (nested blocks excluded) has `key` as its leading
whitespace-separated token.  Follows the spec's words for
`ensure_directive`. -/
def specDirectivePresent (key : Text) (block : Text) : Bool :=
  (splitLines (locationOwnBody block)).any (fun ln => (splitWs ln).head? = some key)

/-- Everything from the first newline of `t` on (the spec's "every byte
outside the header line"). -/
def dropFirstLine (t : Text) : Text := t.drop ((findSub t ['\n']).getD t.length)

/-- Scan used to state that a multiline-anchored pattern has no match in a
text fragment whose scan starts in the middle of a line (`atLS = false`) or at
a line start (`atLS = true`). -/
def noMatchScan (ts : List Tok) : Text → Bool → Bool
  | [], atLS => !(atLS && (matchToks ts []).isSome)
  | c :: s', atLS => !(atLS && (matchToks ts (c :: s')).isSome) && noMatchScan ts s' (c = '\n')

/-- `s ↦ if (g s).changed then patched else s`: the per-block image realized
by the edit loop. -/
def gApply (g : Text → Text × Bool) (b : Text) : Text := if (g b).2 then (g b).1 else b

/-- The interleaving of the untouched gap segments of `t` (taken from offset
`i` on) with the per-block images of the spans: the shape the edit loop must
produce for the frame property. -/
def rebuild (g : Text → Text × Bool) (t : Text) : Nat → List (Nat × Nat) → Text
  | i, [] => t.drop i
  | i, (s, e) :: rest => sliceT i s t ++ gApply g (sliceT s e t) ++ rebuild g t (max i e) rest

/-- Sorted-disjoint-in-bounds spans, starting at or after `i`, ending at or
before `n`. -/
def SpanChain (n : Nat) : Nat → List (Nat × Nat) → Prop
  | _, [] => True
  | i, (s, e) :: rest => i ≤ s ∧ s < e ∧ e ≤ n ∧ SpanChain n e rest

theorem scanClose_lt {cs : Text} {d : Int} {k : Nat} (h : scanClose cs d = some k) :
    k < cs.length := by
  induction cs generalizing d k with
  | nil => simp [scanClose] at h
  | cons c cs ih =>
    simp only [scanClose] at h
    split at h
    · match h' : scanClose cs (d + 1) with
      | none => rw [h'] at h; simp at h
      | some k' =>
        rw [h'] at h
        simp only [Option.map_some'] at h
        cases h
        have := ih h'
        simp only [List.length_cons]
        omega
    · split at h
      · split at h
        · cases h
          simp only [List.length_cons]
          omega
        · match h' : scanClose cs (d - 1) with
          | none => rw [h'] at h; simp at h
          | some k' =>
            rw [h'] at h
            simp only [Option.map_some'] at h
            cases h
            have := ih h'
            simp only [List.length_cons]
            omega
      · match h' : scanClose cs d with
        | none => rw [h'] at h; simp at h
        | some k' =>
          rw [h'] at h
          simp only [Option.map_some'] at h
          cases h
          have := ih h'
          simp only [List.length_cons]
          omega

theorem serverBlocksAux_chain (t : Text) (fuel i : Nat) :
    SpanChain t.length i (serverBlocksAux t fuel i) := by
  induction fuel generalizing i with
  | zero => simp [serverBlocksAux, SpanChain]
  | succ fuel ih =>
    simp only [serverBlocksAux]
    match searchWB serverOpenToks (t.drop i) with
    | none => simp [SpanChain]
    | some (ms, ml) =>
      simp only
      match h : scanClose (t.drop (i + ms + ml)) 0 with
      | none => simp [SpanChain]
      | some k =>
        have hk := scanClose_lt h
        rw [List.length_drop] at hk
        refine ⟨by omega, by omega, by omega, ih _⟩

theorem serverBlocks_chain (t : Text) : SpanChain t.length 0 (serverBlocks t) :=
  serverBlocksAux_chain t (t.length + 1) 0

theorem applyBlockEdits_frame (g : Text → Text × Bool) :
    ∀ (bs : List (Nat × Nat)) (t : Text) (i : Nat), SpanChain t.length i bs →
      (applyBlockEdits g bs t).1 = t.take i ++ rebuild g t i bs := by
  intro bs
  induction bs with
  | nil => intro t i _; simp [applyBlockEdits, rebuild, List.take_append_drop]
  | cons se rest ih =>
    intro t i hch
    obtain ⟨s, e⟩ := se
    obtain ⟨his, hse, hen, hrest⟩ := hch
    have hacc : (applyBlockEdits g rest t).1 = t.take e ++ rebuild g t e rest := ih t e hrest
    have hlen : (t.take e).length = e := by
      rw [List.length_take]; omega
    have htkE : (applyBlockEdits g rest t).1.take e = t.take e := by
      rw [hacc, List.take_append_of_le_length (by omega), List.take_take]
      congr 1
      omega
    have htkS : (applyBlockEdits g rest t).1.take s = t.take s := by
      rw [hacc, List.take_append_of_le_length (by omega), List.take_take]
      congr 1
      omega
    have hdrE : (applyBlockEdits g rest t).1.drop e = rebuild g t e rest := by
      rw [hacc, List.drop_left' hlen]
    have hslice : sliceT s e (applyBlockEdits g rest t).1 = sliceT s e t := by
      unfold sliceT
      rw [htkE]
    have hmax : max i e = e := by omega
    have hjoin : t.take i ++ sliceT i s t = t.take s := by
      unfold sliceT
      have h1 : (t.take s).take i = t.take i := by
        rw [List.take_take]; congr 1; omega
      calc t.take i ++ (t.take s).drop i
          = (t.take s).take i ++ (t.take s).drop i := by rw [h1]
        _ = t.take s := List.take_append_drop i (t.take s)
    have hjoin2 : t.take s ++ sliceT s e t = t.take e := by
      unfold sliceT
      have h1 : (t.take e).take s = t.take s := by
        rw [List.take_take]; congr 1; omega
      calc t.take s ++ (t.take e).drop s
          = (t.take e).take s ++ (t.take e).drop s := by rw [h1]
        _ = t.take e := List.take_append_drop s (t.take e)
    show (let sb := sliceT s e (applyBlockEdits g rest t).1;
          let p := g sb;
          if p.2 then ((applyBlockEdits g rest t).1.take s ++ p.1 ++ (applyBlockEdits g rest t).1.drop e, true)
          else applyBlockEdits g rest t).1
        = t.take i ++ rebuild g t i ((s, e) :: rest)
    simp only [rebuild, hmax, hslice, gApply]
    by_cases hc : (g (sliceT s e t)).2
    · simp only [hc, if_true, htkS, hdrE]
      rw [← List.append_assoc, ← List.append_assoc, hjoin]
    · rw [Bool.not_eq_true] at hc
      simp only [hc, Bool.false_eq_true, if_false, hacc]
      simp only [← List.append_assoc]
      rw [hjoin, hjoin2]

theorem rateLimitStep_id_or_true (zone : Text) (burst : Nat) (acc : Text × Bool) (m : Nat) :
    rateLimitStep zone burst acc m = acc ∨ (rateLimitStep zone burst acc m).2 = true := by
  obtain ⟨sb, ch⟩ := acc
  unfold rateLimitStep
  simp only
  match findCharFrom sb m '{' with
  | none => left; rfl
  | some bo =>
    simp only
    match scanClose (sb.drop (bo + 1)) 1 with
    | none => left; rfl
    | some k =>
      simp only
      split
      · left; rfl
      · match findCharFrom sb bo '\n' with
        | none => left; rfl
        | some ble => right; rfl

theorem rateLimit_foldl_true (zone : Text) (burst : Nat) :
    ∀ (l : List Nat) (acc : Text × Bool), acc.2 = true →
      (l.foldl (rateLimitStep zone burst) acc).2 = true := by
  intro l
  induction l with
  | nil => intro acc h; simpa using h
  | cons m rest ih =>
    intro acc h
    simp only [List.foldl_cons]
    rcases rateLimitStep_id_or_true zone burst acc m with heq | htr
    · rw [heq]; exact ih acc h
    · exact ih _ htr

theorem rateLimit_foldl_unchanged (zone : Text) (burst : Nat) :
    ∀ (l : List Nat) (acc : Text × Bool),
      (l.foldl (rateLimitStep zone burst) acc).2 = false →
      l.foldl (rateLimitStep zone burst) acc = acc := by
  intro l
  induction l with
  | nil => intro acc _; rfl
  | cons m rest ih =>
    intro acc h
    simp only [List.foldl_cons] at h ⊢
    rcases rateLimitStep_id_or_true zone burst acc m with heq | htr
    · rw [heq] at h ⊢; exact ih acc h
    · have := rateLimit_foldl_true zone burst rest _ htr
      rw [this] at h
      cases h

theorem pickFirst_none {α : Type} (m : List (Text × α)) :
    ∀ (ds : List Text), (∀ d ∈ ds, lookupT m d = none) → pickFirst m ds = none := by
  intro ds
  induction ds with
  | nil => intro _; rfl
  | cons d rest ih =>
    intro h
    have hd := h d (List.mem_cons_self d rest)
    simp only [pickFirst, hd]
    exact ih (fun x hx => h x (List.mem_cons_of_mem d hx))

theorem matchToks_le {ts : List Tok} :
    ∀ {s : Text} {L : Nat}, matchToks ts s = some L → L ≤ s.length := by
  induction ts with
  | nil =>
    intro s L h
    simp only [matchToks] at h
    cases h
    exact Nat.zero_le _
  | cons tk rest ih =>
    intro s L h
    cases tk with
    | lit cs =>
      simp only [matchToks] at h
      split at h
      · rename_i hp
        match h' : matchToks rest (s.drop cs.length) with
        | none => rw [h'] at h; simp at h
        | some L' =>
          rw [h'] at h
          simp only [Option.map_some'] at h
          cases h
          have h1 := ih h'
          have h2 : cs.length ≤ s.length := (List.isPrefixOf_iff_prefix.mp hp).length_le
          rw [List.length_drop] at h1
          omega
      · cases h
    | ws1 =>
      simp only [matchToks] at h
      split at h
      · cases h
      · match h' : matchToks rest (s.drop (s.takeWhile pySpace).length) with
        | none => rw [h'] at h; simp at h
        | some L' =>
          rw [h'] at h
          simp only [Option.map_some'] at h
          cases h
          have h1 := ih h'
          have h2 : (s.takeWhile pySpace).length ≤ s.length := (s.takeWhile_prefix pySpace).length_le
          rw [List.length_drop] at h1
          omega
    | ws0 =>
      simp only [matchToks] at h
      match h' : matchToks rest (s.drop (s.takeWhile pySpace).length) with
      | none => rw [h'] at h; simp at h
      | some L' =>
        rw [h'] at h
        simp only [Option.map_some'] at h
        cases h
        have h1 := ih h'
        have h2 : (s.takeWhile pySpace).length ≤ s.length := (s.takeWhile_prefix pySpace).length_le
        rw [List.length_drop] at h1
        omega

/-- Unfolding equation of `subMLAux` at nonzero fuel. -/
theorem subMLAux_succ (ts : List Tok) (repl : Text → Text) (fuel : Nat) (s : Text) (atLS : Bool) :
    subMLAux ts repl (fuel + 1) s atLS =
      match (if atLS then matchToks ts s else none) with
      | some L =>
        if L = 0 then
          match s with
          | [] => []
          | c :: s' => c :: subMLAux ts repl fuel s' (c = '\n')
        else repl (s.take L) ++ subMLAux ts repl fuel (s.drop L) (atLSAfter s L)
      | none =>
        match s with
        | [] => []
        | c :: s' => c :: subMLAux ts repl fuel s' (c = '\n') := rfl

/-- If the multiline scan (starting in state `atLS`) finds no anchored match,
the global substitution leaves the text unchanged. -/
theorem subMLAux_noMatch (ts : List Tok) (repl : Text → Text) :
    ∀ (fuel : Nat) (s : Text) (atLS : Bool), s.length < fuel →
      noMatchScan ts s atLS = true → subMLAux ts repl fuel s atLS = s := by
  intro fuel
  induction fuel with
  | zero => intro s atLS h _; omega
  | succ fuel ih =>
    intro s atLS hlen hnm
    rw [subMLAux_succ]
    cases ham : (if atLS then matchToks ts s else none) with
    | some L =>
      exfalso
      cases atLS with
      | false => simp at ham
      | true =>
        simp only [if_true] at ham
        match s with
        | [] =>
          simp only [noMatchScan, ham, Option.isSome_some, Bool.and_true, Bool.not_true] at hnm
          exact Bool.noConfusion hnm
        | c :: s' =>
          simp only [noMatchScan, ham, Option.isSome_some, Bool.and_true, Bool.not_true,
            Bool.false_and] at hnm
          exact Bool.noConfusion hnm
    | none =>
      simp only
      match s with
      | [] => rfl
      | c :: s' =>
        simp only [noMatchScan, Bool.and_eq_true] at hnm
        have := ih s' (c = '\n') (by simp only [List.length_cons] at hlen; omega) hnm.2
        simp only [this]

/-- The header text rewritten by the clone rule. -/
def meHdrText : Text := lc "location = /me \x7b"

/-- The replacement header text produced by the clone rule. -/
def meNewHdrText : Text := lc "location ^~ /me/ \x7b"

/-- The tokens of `meExactLooseToks` after the leading `\s*`. -/
def meMidToks : List Tok :=
  [.lit (lc "location"), .ws0, .lit (lc "="), .ws0, .lit (lc "/me"), .ws0, .lit (lc "\x7b")]

theorem takeWhile_cons_false (c : Char) (h : pySpace c = false) (l : Text) :
    (c :: l).takeWhile pySpace = [] := by
  simp [List.takeWhile_cons, h]

theorem takeWhile_append_all (p : Char → Bool) :
    ∀ (l r : Text), (∀ c ∈ l, p c = true) → r.takeWhile p = [] → (l ++ r).takeWhile p = l := by
  intro l
  induction l with
  | nil => intro r _ hr; simpa using hr
  | cons c l' ih =>
    intro r hl hr
    have hc : p c = true := hl c (List.mem_cons_self c l')
    simp only [List.cons_append, List.takeWhile_cons, hc, if_true]
    rw [ih r (fun x hx => hl x (List.mem_cons_of_mem c hx)) hr]

theorem matchToks_lit (cs X : Text) (ts : List Tok) :
    matchToks (.lit cs :: ts) (cs ++ X) = (matchToks ts X).map (· + cs.length) := by
  simp only [matchToks]
  rw [if_pos (List.isPrefixOf_iff_prefix.mpr ⟨X, rfl⟩), List.drop_left]

theorem matchToks_ws0 (w X : Text) (ts : List Tok) (hw : ∀ c ∈ w, pySpace c = true)
    (hx : X.takeWhile pySpace = []) :
    matchToks (.ws0 :: ts) (w ++ X) = (matchToks ts X).map (· + w.length) := by
  simp only [matchToks]
  rw [takeWhile_append_all pySpace w X hw hx, List.drop_left]

theorem oneSpace_all : ∀ c ∈ ([' '] : Text), pySpace c = true := by
  intro c hc
  rw [List.mem_singleton] at hc
  subst hc
  rfl

theorem matchMeMid (body : Text) :
    matchToks meMidToks (meHdrText ++ body) = some 16 := by
  have h1 : meHdrText ++ body = lc "location" ++ (lc " = /me \x7b" ++ body) := rfl
  have h2 : lc " = /me \x7b" ++ body = [' '] ++ (lc "= /me \x7b" ++ body) := rfl
  have h3 : lc "= /me \x7b" ++ body = lc "=" ++ (lc " /me \x7b" ++ body) := rfl
  have h4 : lc " /me \x7b" ++ body = [' '] ++ (lc "/me \x7b" ++ body) := rfl
  have h5 : lc "/me \x7b" ++ body = lc "/me" ++ (lc " \x7b" ++ body) := rfl
  have h6 : lc " \x7b" ++ body = [' '] ++ (lc "\x7b" ++ body) := rfl
  have hx3 : (lc "= /me \x7b" ++ body).takeWhile pySpace = [] := by
    rw [show lc "= /me \x7b" ++ body = '=' :: (lc " /me \x7b" ++ body) from rfl]
    exact takeWhile_cons_false '=' rfl _
  have hx5 : (lc "/me \x7b" ++ body).takeWhile pySpace = [] := by
    rw [show lc "/me \x7b" ++ body = '/' :: (lc "me \x7b" ++ body) from rfl]
    exact takeWhile_cons_false '/' rfl _
  have hx7 : (lc "\x7b" ++ body).takeWhile pySpace = [] := by
    rw [show lc "\x7b" ++ body = '\x7b' :: body from rfl]
    exact takeWhile_cons_false '\x7b' rfl _
  have e7 : matchToks [Tok.lit (lc "\x7b")] (lc "\x7b" ++ body) = some 1 := by
    rw [matchToks_lit]
    rfl
  have e6 : matchToks [Tok.ws0, Tok.lit (lc "\x7b")] (lc " \x7b" ++ body) = some 2 := by
    rw [h6, matchToks_ws0 [' '] (lc "\x7b" ++ body) _ oneSpace_all hx7, e7]
    rfl
  have e5 : matchToks [Tok.lit (lc "/me"), Tok.ws0, Tok.lit (lc "\x7b")] (lc "/me \x7b" ++ body) = some 5 := by
    rw [h5, matchToks_lit, e6]
    rfl
  have e4 : matchToks [Tok.ws0, Tok.lit (lc "/me"), Tok.ws0, Tok.lit (lc "\x7b")] (lc " /me \x7b" ++ body) = some 6 := by
    rw [h4, matchToks_ws0 [' '] (lc "/me \x7b" ++ body) _ oneSpace_all hx5, e5]
    rfl
  have e3 : matchToks [Tok.lit (lc "="), Tok.ws0, Tok.lit (lc "/me"), Tok.ws0, Tok.lit (lc "\x7b")] (lc "= /me \x7b" ++ body) = some 7 := by
    rw [h3, matchToks_lit, e4]
    rfl
  have e2 : matchToks [Tok.ws0, Tok.lit (lc "="), Tok.ws0, Tok.lit (lc "/me"), Tok.ws0, Tok.lit (lc "\x7b")] (lc " = /me \x7b" ++ body) = some 8 := by
    rw [h2, matchToks_ws0 [' '] (lc "= /me \x7b" ++ body) _ oneSpace_all hx3, e3]
    rfl
  show matchToks (Tok.lit (lc "location") :: [Tok.ws0, Tok.lit (lc "="), Tok.ws0, Tok.lit (lc "/me"), Tok.ws0, Tok.lit (lc "\x7b")]) (meHdrText ++ body) = some 16
  rw [h1, matchToks_lit, e2]
  rfl

theorem meHdr_takeWhile (body : Text) : (meHdrText ++ body).takeWhile pySpace = [] := by
  rw [show meHdrText ++ body = 'l' :: (lc "ocation = /me \x7b" ++ body) from rfl]
  exact takeWhile_cons_false 'l' rfl _

theorem matchMeHeader (indent body : Text) (hind : ∀ c ∈ indent, pySpace c = true) :
    matchToks meExactLooseToks (indent ++ (meHdrText ++ body)) = some (indent.length + 16) := by
  show matchToks (Tok.ws0 :: meMidToks) (indent ++ (meHdrText ++ body)) = some (indent.length + 16)
  rw [matchToks_ws0 indent (meHdrText ++ body) meMidToks hind (meHdr_takeWhile body), matchMeMid]
  simp [Nat.add_comm]

/-- Clone fidelity under a unique header match: when the extracted block is a
(whitespace) indent followed by the `location = /me {` header and a body in
which the header pattern has no further anchored match, the clone differs from
the source in the header text only — every body byte is preserved. -/
theorem cloneMe_fidelity (indent body : Text)
    (hind : ∀ c ∈ indent, pySpace c = true)
    (hnb : noMatchScan meExactLooseToks body false = true) :
    cloneMe (indent ++ (meHdrText ++ body)) = indent ++ (meNewHdrText ++ body) := by
  have hassoc : indent ++ (meHdrText ++ body) = (indent ++ meHdrText) ++ body :=
    (List.append_assoc indent meHdrText body).symm
  have hlen16 : meHdrText.length = 16 := rfl
  have hlenIH : (indent ++ meHdrText).length = indent.length + 16 := by
    rw [List.length_append, hlen16]
  unfold cloneMe subML
  rw [subMLAux_succ]
  rw [if_pos rfl, matchMeHeader indent body hind]
  simp only
  rw [if_neg (by omega)]
  have htake : (indent ++ (meHdrText ++ body)).take (indent.length + 16) = indent ++ meHdrText := by
    rw [hassoc]
    exact List.take_left' hlenIH
  have hdrop : (indent ++ (meHdrText ++ body)).drop (indent.length + 16) = body := by
    rw [hassoc]
    exact List.drop_left' hlenIH
  have hrepl : subMeRepl (indent ++ meHdrText) = indent ++ meNewHdrText := by
    unfold subMeRepl
    rw [takeWhile_append_all pySpace indent meHdrText hind (meHdr_takeWhile [])]
    rfl
  have hls : atLSAfter (indent ++ (meHdrText ++ body)) (indent.length + 16) = false := by
    unfold atLSAfter
    rw [htake, List.getLast?_append]
    rw [show meHdrText.getLast? = some '\x7b' from rfl]
    rfl
  rw [htake, hdrop, hrepl, hls]
  have hfuel : body.length < (indent ++ (meHdrText ++ body)).length := by
    rw [List.length_append, List.length_append, hlen16]
    omega
  rw [subMLAux_noMatch meExactLooseToks subMeRepl _ body false hfuel hnb]
  rw [List.append_assoc]

/-! Concrete documents used by the claim theorems.  Every expected output was
obtained by hand-tracing the scripts on the input. -/

/-- Configuration with one matched domain, no uploads mapping and no port
mapping. -/
def mapsAcom : Maps := ⟨[lc "a.com"], [], []⟩

/-- A minimal matched vhost whose first child block is `location = /me`. -/
def docC1 : Text := lc "server \x7b\n    server_name a.com;\n    location = /me \x7b\n        proxy_pass http://127.0.0.1:3001;\n    \x7d\n\x7d\n"

/-- `docC1` after one run of the patch pipeline. -/
def docC1once : Text := lc "server \x7b\n    server_name a.com;\n    location = /me \x7b\n        # memalerts-managed: rate-limit\n        limit_req zone=memalerts_api_per_ip burst=30 nodelay;\n        proxy_pass http://127.0.0.1:3001;\n    \x7d\n    # memalerts-managed: api proxy (/me/*)\n    location ^~ /me/ \x7b\n        proxy_pass http://127.0.0.1:3001;\n    \x7d\n\n\x7d\n"

/-- `docC1once` after a second run of the patch pipeline: the scanner's span
ends at the first child's closing brace, so the first run's clone is outside
the span and a second clone is inserted. -/
def docC1twice : Text := lc "server \x7b\n    server_name a.com;\n    location = /me \x7b\n        # memalerts-managed: rate-limit\n        limit_req zone=memalerts_api_per_ip burst=30 nodelay;\n        proxy_pass http://127.0.0.1:3001;\n    \x7d\n    # memalerts-managed: api proxy (/me/*)\n    location ^~ /me/ \x7b\n        # memalerts-managed: rate-limit\n        limit_req zone=memalerts_api_per_ip burst=30 nodelay;\n        proxy_pass http://127.0.0.1:3001;\n    \x7d\n\n    # memalerts-managed: api proxy (/me/*)\n    location ^~ /me/ \x7b\n        proxy_pass http://127.0.0.1:3001;\n    \x7d\n\n\x7d\n"

/-- A document with one unmatched `\x7b` (three opens, two closes) containing
one complete-looking server block before the corruption. -/
def docC2 : Text := lc "server \x7b\n    server_name a.com;\n    location = /me \x7b\n        proxy_pass http://x;\n    \x7d\n\x7d\n\x7b\n"

/-- What the pipeline writes back for `docC2`. -/
def docC2patched : Text := lc "server \x7b\n    server_name a.com;\n    location = /me \x7b\n        # memalerts-managed: rate-limit\n        limit_req zone=memalerts_api_per_ip burst=30 nodelay;\n        proxy_pass http://x;\n    \x7d\n    # memalerts-managed: api proxy (/me/*)\n    location ^~ /me/ \x7b\n        proxy_pass http://x;\n    \x7d\n\n\x7d\n\x7b\n"

/-- A document with an unmatched `\x7b` and no completed scan: the scanner
reports no blocks. -/
def docC2b : Text := lc "server \x7b\n    server_name a.com;\n"

/-- A server block whose catch-all `location /` is two-space indented. -/
def docC3 : Text := lc "server \x7b\n  server_name a.com;\n  location / \x7b\n    try_files $uri /index.html;\n  \x7d\n\x7d"

/-- The insertion result on `docC3`: the specific block lands before the final
brace, after the catch-all. -/
def docC3out : Text := lc "server \x7b\n  server_name a.com;\n  location / \x7b\n    try_files $uri /index.html;\n  \x7d\n    # memalerts-managed: block internal relay\n    location ^~ /internal/ \x7b\n        return 404;\n    \x7d\n\n\x7d"

/-- A server block whose `location = /me` block contains a nested
`location = /me` block. -/
def sbC4 : Text := lc "server \x7b\n    server_name a.com;\n    location = /me \x7b\n        proxy_pass http://x;\n        location = /me \x7b\n            a;\n        \x7d\n    \x7d\n\x7d"

/-- The `location = /me` block extracted from `sbC4`. -/
def blockC4 : Text := lc "    location = /me \x7b\n        proxy_pass http://x;\n        location = /me \x7b\n            a;\n        \x7d\n    \x7d"

/-- The clone the code produces for `blockC4`: the nested header line is
rewritten as well. -/
def cloneC4 : Text := lc "    location ^~ /me/ \x7b\n        proxy_pass http://x;\n        location ^~ /me/ \x7b\n            a;\n        \x7d\n    \x7d"

/-- Scenario A: a server block with `location = /me` and a catch-all, no
`location ^~ /me/`. -/
def sbC4A : Text := lc "server \x7b\n    location = /me \x7b\n        proxy_pass http://x;\n    \x7d\n    location / \x7b\n        try_files $uri;\n    \x7d\n\x7d"

/-- `sbC4A` after the clone step: marker plus clone immediately after the
original block. -/
def sbC4Aout : Text := lc "server \x7b\n    location = /me \x7b\n        proxy_pass http://x;\n    \x7d\n    # memalerts-managed: api proxy (/me/*)\n    location ^~ /me/ \x7b\n        proxy_pass http://x;\n    \x7d\n\n    location / \x7b\n        try_files $uri;\n    \x7d\n\x7d"

/-- A server block whose `/me` location has `limit_req` only inside a
comment. -/
def docC7 : Text := lc "server \x7b\n    location = /me \x7b\n        # limit_req disabled here\n        proxy_pass http://x;\n    \x7d\n\x7d"

/-- The `location = /me` block of `docC7`. -/
def locC7 : Text := lc "    location = /me \x7b\n        # limit_req disabled here\n        proxy_pass http://x;\n    \x7d"

/-- A deeply indented server block without any `limit_req`. -/
def docC7b : Text := lc "server \x7b\n        location = /me \x7b\n                proxy_pass http://x;\n        \x7d\n\x7d"

/-- The augmenter's output on `docC7b`: the inserted lines use the fixed
eight-space indentation, not the block's own. -/
def docC7bout : Text := lc "server \x7b\n        location = /me \x7b\n        # memalerts-managed: rate-limit\n        limit_req zone=memalerts_api_per_ip burst=30 nodelay;\n                proxy_pass http://x;\n        \x7d\n\x7d"

/-- A server block whose only `server_name` line sits inside a nested
location block. -/
def docC8 : Text := lc "server \x7b\n    location / \x7b\n        server_name evil.com;\n    \x7d\n\x7d"

/-- A server block without any `server_name` line. -/
def docC8b : Text := lc "server \x7b\n    listen 80;\n\x7d"

/-- A two-server document: the first server block has `location ^~ /me/`, the
second has `location = /me` but no prefix variant. -/
def docC10 : Text := lc "server \x7b\n    server_name a.com;\n    location ^~ /me/ \x7b\n        proxy_pass http://x;\n    \x7d\n\x7d\nserver \x7b\n    server_name b.com;\n    location = /me \x7b\n        proxy_pass http://y;\n    \x7d\n\x7d\n"

/-- C1.  The claim states the whole patch pipeline is idempotent
(`apply(apply(D)) = apply(D)` for every document).  It fails on `docC1`: the
brace scanner starts its depth counter at zero after already consuming the
opening `\x7b` of `server \x7b`, so the reported span ends at the first child
block's closing brace; the clone inserted by the first run lies outside the
span the second run examines, and the second run clones `location = /me`
again and reports a change. -/
theorem claimC1_pipeline_reapplication_changes_text :
    patchTextPure mapsAcom docC1 = (docC1once, true) ∧
    patchTextPure mapsAcom docC1once = (docC1twice, true) ∧
    docC1twice ≠ docC1once := by
  refine ⟨by decide, by decide, by decide⟩

/-- C2 counterexample.  The claim states that on a document with one unmatched
opening brace the engine reports a `StructuralParseError` and returns the
original text unchanged.  `docC2` has exactly one unmatched `\x7b`, yet the
pipeline changes the text (and the caller would write it back); no diagnostic
of any kind exists in the code. -/
theorem claimC2_counterexample :
    docC2.count '\x7b' = docC2.count '\x7d' + 1 ∧
    patchTextPure mapsAcom docC2 = (docC2patched, true) ∧
    docC2patched ≠ docC2 := by
  refine ⟨by decide, by decide, by decide⟩

/-- C2 amended.  The scanner silently stops at structural corruption and
returns the blocks found before it, with no diagnostic; only when the scan
yields no blocks at all is the document returned unchanged (with
`changed = false`), and even then no error is reported. -/
theorem claimC2_amended (mp : Maps) (t : Text) (h : serverBlocks t = []) :
    patchTextPure mp t = (t, false) := by
  unfold patchTextPure
  rw [h]
  simp

/-- C2 witness: a corrupt document on which the scan yields nothing. -/
theorem claimC2_amended_witness :
    serverBlocks docC2b = [] ∧ patchTextPure mapsAcom docC2b = (docC2b, false) :=
  ⟨by decide, claimC2_amended mapsAcom docC2b (by decide)⟩

/-- C3 counterexample.  The claim states a missing location block is inserted
immediately before the catch-all `location / \x7b` child whenever one is
present.  `docC3` contains a catch-all (two-space indented), yet the inserted
`location ^~ /internal/` block lands before the closing brace — after the
catch-all (first occurrence at index 32 versus insertion at index 131), so the
specific block follows the catch-all. -/
theorem claimC3_counterexample :
    containsSub docC3 (lc "location / \x7b") = true ∧
    ensureLocationIfMissing internalToks internalBlock docC3 = (docC3out, true) ∧
    findSub docC3out (lc "location / \x7b") = some 32 ∧
    findSub docC3out (lc "location ^~ /internal/ \x7b") = some 131 ∧
    32 < 131 := by
  refine ⟨by decide, by decide, by decide, by decide, by decide⟩

/-- C3 amended.  When the header pattern is absent, the insertion point is the
first occurrence of the literal `"\n    location / \x7b"` (the four-space
indented catch-all header) when present, else the last occurrence of the
literal `"\n\x7d"` (a closing brace at column zero), else the block is not
inserted; a catch-all written with any other indentation is not recognized and
the new block then lands after it. -/
theorem claimC3_amended (hdr : List Tok) (blk sb : Text) (h : hasML hdr sb = false) :
    ensureLocationIfMissing hdr blk sb =
      match findSub sb catchallLit with
      | some ip => (spliceAt ip (normalizeBlock blk) sb, true)
      | none =>
        match rfindSub sb closeLit with
        | some ip => (spliceAt ip (normalizeBlock blk) sb, true)
        | none => (sb, false) := by
  unfold ensureLocationIfMissing
  simp only [h, Bool.false_eq_true, if_false]

/-- C3 witness: the amended policy instantiated on `docC3`. -/
theorem claimC3_amended_witness :
    hasML internalToks docC3 = false ∧
    ensureLocationIfMissing internalToks internalBlock docC3 =
      (match findSub docC3 catchallLit with
       | some ip => (spliceAt ip (normalizeBlock internalBlock) docC3, true)
       | none =>
         match rfindSub docC3 closeLit with
         | some ip => (spliceAt ip (normalizeBlock internalBlock) docC3, true)
         | none => (docC3, false)) :=
  ⟨by decide, claimC3_amended internalToks internalBlock docC3 (by decide)⟩

/-- C4 counterexample.  The claim states the clone differs from the source
block only in the header line (and a targeted `proxy_pass` directive).  On
`sbC4` — which contains `location = /me` and no `location ^~ /me/`, so the
clone rule fires — the extracted block has a nested `location = /me` header
and the global substitution rewrites that line too: the text after the first
line of the clone is not identical to the text after the first line of the
source. -/
theorem claimC4_counterexample :
    hasML meSlashToks sbC4 = false ∧
    searchML meExactLooseToks sbC4 = some (32, 20) ∧
    extractBracedBlock sbC4 32 = some (blockC4, 137) ∧
    cloneMe blockC4 = cloneC4 ∧
    dropFirstLine cloneC4 ≠ dropFirstLine blockC4 := by
  refine ⟨by decide, by decide, by decide, by decide, by decide⟩

/-- C4 amended.  The clone rewrites every line matching the
`location = /me \x7b` header pattern; when the pattern occurs only at the head
of the block, the clone differs from the source in the header text alone and
every body byte (directives, comments, indentation) is preserved; the clone,
preceded by a managed-marker comment line, is inserted immediately after the
original block, and re-running the rule reports no change. -/
theorem claimC4_amended :
    (∀ indent body, (∀ c ∈ indent, pySpace c = true) →
        noMatchScan meExactLooseToks body false = true →
        cloneMe (indent ++ (meHdrText ++ body)) = indent ++ (meNewHdrText ++ body)) ∧
    cloneMeInBlock sbC4A = (sbC4Aout, true) ∧
    cloneMeInBlock sbC4Aout = (sbC4Aout, false) :=
  ⟨cloneMe_fidelity, by decide, by decide⟩

/-- C4 witness: fidelity instantiated on a concrete indent and body. -/
theorem claimC4_amended_witness :
    cloneMe (lc "    " ++ (meHdrText ++ lc "\n        proxy_pass http://x;\n    \x7d")) =
      lc "    " ++ (meNewHdrText ++ lc "\n        proxy_pass http://x;\n    \x7d") :=
  claimC4_amended.1 (lc "    ") (lc "\n        proxy_pass http://x;\n    \x7d")
    (by decide) (by decide)

/-- C5.  Finalizing semantics of a session driven by the patch pipeline: when
no rule reported a change, nothing is backed up or written and the state is
untouched; when some rule changed the buffer and the backup succeeds, the
backup holds the original text and it is taken before the write; when the
backup step fails, the write does not proceed and the target keeps its
original content. -/
theorem claimC5_finalizing (mp : Maps) (bOk : Bool) (fs : FileState) :
    ((patchTextPure mp fs.cur).2 = false →
      runPatchSession (patchTextPure mp) bOk fs = (fs, [])) ∧
    ((patchTextPure mp fs.cur).2 = true → bOk = true →
      runPatchSession (patchTextPure mp) bOk fs =
        ({ cur := (patchTextPure mp fs.cur).1, backupFile := some fs.cur },
         [FileEvent.backup, FileEvent.write])) ∧
    ((patchTextPure mp fs.cur).2 = true → bOk = false →
      runPatchSession (patchTextPure mp) bOk fs = (fs, [FileEvent.backup])) := by
  refine ⟨?_, ?_, ?_⟩
  · intro h
    simp [runPatchSession, h]
  · intro h hb
    subst hb
    simp [runPatchSession, h]
  · intro h hb
    subst hb
    simp [runPatchSession, h]

/-- C5 witness: a changed session with a succeeding backup. -/
theorem claimC5_finalizing_witness :
    runPatchSession (patchTextPure mapsAcom) true ⟨docC1, none⟩ =
      ({ cur := (patchTextPure mapsAcom docC1).1, backupFile := some docC1 },
       [FileEvent.backup, FileEvent.write]) :=
  (claimC5_finalizing mapsAcom true ⟨docC1, none⟩).2.1 (by decide) rfl

/-- C6.  Non-destructiveness: the output of the pipeline is exactly the
interleaving of the untouched gap segments of the input with the per-block
images of the scanned spans — every byte outside the targeted spans is
preserved.  This holds because the edit loop visits spans from the last byte
offset to the first, so lower-offset spans stay valid while higher-offset
splices change the buffer length. -/
theorem claimC6_frame (mp : Maps) (t : Text) :
    (patchTextPure mp t).1 = rebuild (patchOneServer mp) t 0 (serverBlocks t) := by
  unfold patchTextPure
  by_cases h : serverBlocks t = []
  · rw [h]
    simp [rebuild]
  · rw [if_neg h]
    rw [applyBlockEdits_frame (patchOneServer mp) (serverBlocks t) t 0 (serverBlocks_chain t)]
    simp

/-- C7 counterexample.  The claim states the augmenter checks for the
directive key as the leading token of a line of the block's own body.  In
`docC7` the only occurrence of `limit_req` is inside a comment — no line has
it as leading token — yet the augmenter reports `changed = false` and inserts
nothing, because its real check is substring containment of
`"limit_req "` over the whole block text. -/
theorem claimC7_counterexample :
    finditerML rlMeToks docC7 = [9] ∧
    extractBracedBlock docC7 9 = some (locC7, 98) ∧
    specDirectivePresent (lc "limit_req") locC7 = false ∧
    ensureLocationRateLimit rlMeToks (lc "memalerts_api_per_ip") 30 docC7 = (docC7, false) := by
  refine ⟨by decide, by decide, by decide, by decide⟩

/-- C7 amended.  The augmenter's presence check is substring containment of
`"limit_req "` over the block's entire text (comments and nested blocks
included); whenever it reports `changed = false` the block is untouched, and
when it inserts, the directive lines go right after the opening-brace line
with a fixed eight-space indentation (not the block's own). -/
theorem claimC7_amended :
    (∀ ts zone burst sb, (ensureLocationRateLimit ts zone burst sb).2 = false →
        (ensureLocationRateLimit ts zone burst sb).1 = sb) ∧
    ensureLocationRateLimit rlMeToks (lc "memalerts_api_per_ip") 30 docC7b = (docC7bout, true) := by
  constructor
  · intro ts zone burst sb h
    unfold ensureLocationRateLimit at h ⊢
    rw [rateLimit_foldl_unchanged zone burst (finditerML ts sb) (sb, false) h]
  · decide

/-- C7 witness: the unchanged-report case instantiated on `docC7`. -/
theorem claimC7_amended_witness :
    (ensureLocationRateLimit rlMeToks (lc "memalerts_api_per_ip") 30 docC7).1 = docC7 :=
  claimC7_amended.1 rlMeToks (lc "memalerts_api_per_ip") 30 docC7 (by decide)

/-- C8 counterexample.  The claim states the identity tokens are extracted
from the block's own text only, not nested blocks.  In `docC8` the only
`server_name` line sits inside a nested `location` block; the spec-side
own-text extraction finds nothing, but the code extracts `evil.com`. -/
theorem claimC8_counterexample :
    serverNames docC8 = [lc "evil.com"] ∧ specServerNames docC8 = [] := by
  refine ⟨by decide, by decide⟩

/-- C8 amended.  The identity line is searched in the block's entire text
(nested blocks included, first match wins); extraction returns the empty list
when the directive is absent, and every returned token is nonempty and never
begins with the `$` sigil. -/
theorem claimC8_amended (sb : Text) :
    (searchServerName sb = none → serverNames sb = []) ∧
    (∀ t ∈ serverNames sb, ¬ (t = []) ∧ ¬ (t.head? = some '$')) := by
  constructor
  · intro h
    unfold serverNames
    rw [h]
  · intro t ht
    unfold serverNames at ht
    cases hs : searchServerName sb with
    | none =>
      rw [hs] at ht
      simp at ht
    | some raw =>
      rw [hs] at ht
      simp only at ht
      have hmem := List.mem_filter.mp ht
      have hb := hmem.2
      simp only [Bool.and_eq_true, decide_eq_true_eq] at hb
      exact hb

/-- C8 witness: absence case instantiated on `docC8b`. -/
theorem claimC8_amended_witness : serverNames docC8b = [] :=
  (claimC8_amended docC8b).1 (by decide)

/-- C9.  When a server block matches the configured domains but none of its
matched domains is mapped to a backend port, the patcher does not fail: it
runs the rule chain with the fixed fallback upstream port 3001, so every
proxy location block it inserts uses `http://127.0.0.1:3001`. -/
theorem claimC9_default_port (mp : Maps) (sb : Text)
    (hne : ¬ (matchedDomains mp.domains (serverNames sb) = []))
    (hmap : ∀ d ∈ matchedDomains mp.domains (serverNames sb),
      lookupT mp.portByDomain d = none) :
    patchOneServer mp sb =
      applyServerRules
        ((pickFirst mp.uploadsByDomain (matchedDomains mp.domains (serverNames sb))).getD [])
        3001 sb := by
  unfold patchOneServer
  rw [if_neg hne, pickFirst_none mp.portByDomain _ hmap]
  rfl

/-- C9 witness: `docC1` under a configuration with an empty port mapping. -/
theorem claimC9_default_port_witness :
    patchOneServer mapsAcom docC1 =
      applyServerRules
        ((pickFirst mapsAcom.uploadsByDomain (matchedDomains mapsAcom.domains (serverNames docC1))).getD [])
        3001 docC1 :=
  claimC9_default_port mapsAcom docC1 (by decide) (by decide)

/-- C10.  In the me-proxy patcher the presence check for `location ^~ /me/ \x7b`
is evaluated once over the whole document: whenever it matches anywhere, the
clone stage changes nothing in any server block — including a server block
that has `location = /me` but no prefix variant. -/
theorem claimC10_global_guard (t : Text) (h : hasML meSlashToks t = true) :
    meProxyCloneStage t = some (t, false) := by
  unfold meProxyCloneStage
  rw [if_pos h]

/-- C10 witness: a two-server document where only the first server block has
the prefix variant; the second keeps its missing variant. -/
theorem claimC10_global_guard_witness :
    hasML meSlashToks docC10 = true ∧ meProxyCloneStage docC10 = some (docC10, false) :=
  ⟨by decide, claimC10_global_guard docC10 (by decide)⟩

end NginxPatch
